import Mathlib

/-!
Shallow embedding of the order-lifecycle core of the pizza-counter
point-of-sale application (cart building, order submission and
validation, status transitions, date grouping, dashboard statistics and
sales-report persistence), together with theorems settling the frozen
claims about it.

Money is modelled exactly as rationals (the backing store declares
`DECIMAL(10,2)` columns); JavaScript `parseInt` is modelled as a
function returning either an integer or NaN; timestamps are modelled as
a calendar-day index plus a second-of-day.
-/

namespace PizzaHQ

/-- Product as selected in `CreateOrder.tsx` (id, name, price; image and
description play no role in the order core). -/
structure Product where
  id : String
  name : String
  price : ℚ
  deriving DecidableEq

/-- Cart line item of `CreateOrder.tsx`: a product together with a
quantity.  Quantity is a JavaScript number set by `updateQuantity`, so it
is modelled as an integer (the code never guards against negatives). -/
structure OrderItem where
  product : Product
  quantity : ℤ
  deriving DecidableEq

/-- `addToOrder` from `CreateOrder.tsx` (lines 73-85): if an item with the
same product id exists, increment its quantity by one, otherwise append a
new entry with quantity 1. -/
def addToOrder (orderItems : List OrderItem) (product : Product) : List OrderItem :=
  if orderItems.any (fun item => item.product.id = product.id) then
    orderItems.map (fun item =>
      if item.product.id = product.id then
        { item with quantity := item.quantity + 1 }
      else item)
  else
    orderItems ++ [{ product := product, quantity := 1 }]

/-- `updateQuantity` from `CreateOrder.tsx` (lines 87-97): quantity 0
removes the entry, any other quantity (negative included) is written
as given. -/
def updateQuantity (orderItems : List OrderItem) (productId : String)
    (newQuantity : ℤ) : List OrderItem :=
  if newQuantity = 0 then
    orderItems.filter (fun item => item.product.id ≠ productId)
  else
    orderItems.map (fun item =>
      if item.product.id = productId then
        { item with quantity := newQuantity }
      else item)

/-- `getTotalAmount` from `CreateOrder.tsx` (lines 99-101): a left fold
accumulating `price × quantity` starting from 0. -/
def getTotalAmount (orderItems : List OrderItem) : ℚ :=
  orderItems.foldl (fun total item => total + item.product.price * item.quantity) 0

/-- Result of JavaScript `parseInt`: an integer or NaN. -/
inductive JSNumber where
  | nan
  | int (n : ℤ)
  deriving DecidableEq

/-- Digit run to a natural number, most significant first. -/
def digitsToNat (ds : List Char) : ℕ :=
  ds.foldl (fun acc c => acc * 10 + (c.toNat - 48)) 0

/-- JavaScript `parseInt` on a base-10 string: skip leading spaces, read an
optional sign, then the longest run of decimal digits; NaN when no digit
is read. -/
def jsParseInt (s : String) : JSNumber :=
  let cs := s.data.dropWhile (fun c => c = ' ')
  match cs with
  | '-' :: rest =>
      let ds := rest.takeWhile Char.isDigit
      if ds.isEmpty then .nan else .int (-(digitsToNat ds : ℤ))
  | '+' :: rest =>
      let ds := rest.takeWhile Char.isDigit
      if ds.isEmpty then .nan else .int (digitsToNat ds)
  | _ =>
      let ds := cs.takeWhile Char.isDigit
      if ds.isEmpty then .nan else .int (digitsToNat ds)

/-- The two order types offered by the radio group. -/
inductive OrderType where
  | dine_in
  | delivery
  deriving DecidableEq

/-- The validation failures of `handleSubmitOrder`. -/
inductive ValidationError where
  | EmptyOrder
  | MissingTableNumber
  | MissingDeliveryInfo
  deriving DecidableEq

/-- The form state consulted by `handleSubmitOrder`: the cart, the order
type, and the raw text-field contents (controlled inputs, always
strings). -/
structure OrderForm where
  orderItems : List OrderItem
  orderType : OrderType
  tableNumber : String
  customerName : String
  customerAddress : String
  customerLocation : String
  deriving DecidableEq

/-- The order record composed on successful submission
(`CreateOrder.tsx` lines 135-144). -/
structure OrderData where
  order_type : OrderType
  table_number : Option JSNumber
  customer_name : Option String
  customer_address : Option String
  customer_location : Option String
  total_amount : ℚ
  status : String
  deriving DecidableEq

/-- One persisted line item (`CreateOrder.tsx` lines 155-161). -/
structure OrderItemData where
  product_id : String
  quantity : ℤ
  unit_price : ℚ
  subtotal : ℚ
  deriving DecidableEq

/-- `handleSubmitOrder` from `CreateOrder.tsx` (lines 103-167): the three
validation checks in source order (empty cart; dine-in with empty table
number; delivery with an empty name, address or location), each returning
before any write, then the order record and the line-item records built
from the cart.  An `Except.error` result models the early return: nothing
is persisted. -/
def handleSubmitOrder (form : OrderForm) :
    Except ValidationError (OrderData × List OrderItemData) :=
  if form.orderItems.length = 0 then
    .error .EmptyOrder
  else if form.orderType = .dine_in ∧ form.tableNumber = "" then
    .error .MissingTableNumber
  else if form.orderType = .delivery ∧
      (form.customerName = "" ∨ form.customerAddress = "" ∨
        form.customerLocation = "") then
    .error .MissingDeliveryInfo
  else
    .ok
      ({ order_type := form.orderType
         table_number :=
           if form.orderType = .dine_in then some (jsParseInt form.tableNumber)
           else none
         customer_name :=
           if form.orderType = .delivery then some form.customerName else none
         customer_address :=
           if form.orderType = .delivery then some form.customerAddress else none
         customer_location :=
           if form.orderType = .delivery then some form.customerLocation else none
         total_amount := getTotalAmount form.orderItems
         status := "pending" },
       form.orderItems.map (fun item =>
         { product_id := item.product.id
           quantity := item.quantity
           unit_price := item.product.price
           subtotal := item.product.price * item.quantity }))

/-- Rounding to two decimal places (round half up), the catalog's stated
currency precision. -/
def round2 (q : ℚ) : ℚ :=
  (⌊q * 100 + 1 / 2⌋ : ℚ) / 100

/-- A persisted order row as read back by `Orders.tsx`, `Dashboard` and
the report generator.  The creation timestamp is split into a calendar
day index and a second within the day (`created_day * 86400 +
created_sec` is the absolute timestamp in seconds). -/
structure DbOrder where
  id : String
  status : String
  total_amount : ℚ
  created_day : ℤ
  created_sec : ℕ
  deriving DecidableEq

/-- Absolute creation timestamp of an order, in seconds. -/
def DbOrder.ts (o : DbOrder) : ℤ :=
  o.created_day * 86400 + o.created_sec

/-- The window used by the revenue query of `fetchStats` (Dashboard) and
by `generateSalesReport`: `created_at >= dayT00:00:00` and
`created_at < dayT23:59:59` — a strict upper bound one second before
midnight. -/
def inTodayWindow (day : ℤ) (o : DbOrder) : Bool :=
  day * 86400 ≤ o.ts ∧ o.ts < day * 86400 + 86399

/-- The dashboard statistics record. -/
structure Stats where
  totalOrders : ℕ
  pendingOrders : ℕ
  todayRevenue : ℚ
  deriving DecidableEq

/-- `fetchStats` from the Dashboard page (lines 62-100): the total count
over all orders, the pending count over all orders, and the revenue as a
`reduce` over the orders of the reference day's window only. -/
def fetchStats (orders : List DbOrder) (today : ℤ) : Stats :=
  { totalOrders := orders.length
    pendingOrders := (orders.filter (fun o => o.status = "pending")).length
    todayRevenue :=
      ((orders.filter (inTodayWindow today)).map DbOrder.total_amount).foldl
        (fun sum amount => sum + amount) 0 }

/-- Written from the spec sentence for `aggregateStats` (claim C5), to be
compared with `fetchStats`: total count, pending count and revenue all
restricted to orders whose creation timestamp falls in the reference
day's window. -/
def aggregateStatsClaim (orders : List DbOrder) (today : ℤ) : Stats :=
  let windowed := orders.filter (inTodayWindow today)
  { totalOrders := windowed.length
    pendingOrders := (windowed.filter (fun o => o.status = "pending")).length
    todayRevenue := (windowed.map DbOrder.total_amount).foldl
      (fun sum amount => sum + amount) 0 }

/-- One bucket of `groupOrdersByDate`: a calendar-day key with the orders
of that day. -/
abbrev DateGroup : Type := ℤ × List DbOrder

/-- Adding one order to the accumulated buckets, as the `forEach` body of
`groupOrdersByDate` does on the key-insertion-ordered object: push onto
the existing bucket for the order's date, or append a fresh bucket. -/
def insertIntoGroups (groups : List DateGroup) (o : DbOrder) : List DateGroup :=
  if groups.any (fun g => g.1 = o.created_day) then
    groups.map (fun g =>
      if g.1 = o.created_day then (g.1, g.2 ++ [o]) else g)
  else
    groups ++ [(o.created_day, [o])]

/-- The descending-by-date comparison used by the final `sort` of
`groupOrdersByDate` (`new Date(b).getTime() - new Date(a).getTime()`). -/
def dateGe (a b : DateGroup) : Prop := b.1 ≤ a.1

instance : DecidableRel dateGe := fun a b => inferInstanceAs (Decidable (b.1 ≤ a.1))

instance : IsTotal DateGroup dateGe := ⟨fun a b => le_total b.1 a.1⟩

instance : IsTrans DateGroup dateGe := ⟨fun _ _ _ h h1 => le_trans h1 h⟩

/-- `groupOrdersByDate` from `Orders.tsx` (lines 149-163): fold the orders
into buckets keyed by the calendar date of creation, in key-insertion
order, then sort the buckets descending by date. -/
def groupOrdersByDate (orders : List DbOrder) : List DateGroup :=
  List.insertionSort dateGe (orders.foldl insertIntoGroups [])

/-- `updateOrderStatus` from `Orders.tsx` (lines 89-113): an unguarded
single-field update — every row whose id matches gets the requested
status, no other field changes, no other row changes. -/
def updateOrderStatus (orders : List DbOrder) (orderId : String)
    (newStatus : String) : List DbOrder :=
  orders.map (fun o => if o.id = orderId then { o with status := newStatus } else o)

/-- The status-transition buttons rendered by `Orders.tsx`
(lines 331-348): `pending` offers Start Preparation (`in_progress`),
`in_progress` offers Mark Complete (`completed`), nothing otherwise. -/
def ordersPageTransitions (status : String) : List String :=
  if status = "pending" then ["in_progress"]
  else if status = "in_progress" then ["completed"]
  else []

/-- The Mark Complete button of the Order Summary page
(`handleCompleteOrder`): rendered only while the order is `pending`, and
it writes `completed` directly. -/
def orderSummaryTransitions (status : String) : List String :=
  if status = "pending" then ["completed"] else []

/-- All status transitions the UI offers from a given status, across both
pages. -/
def availableTransitions (status : String) : List String :=
  ordersPageTransitions status ++ orderSummaryTransitions status

/-- Position of a status along the forward lifecycle. -/
def statusRank (status : String) : ℕ :=
  if status = "pending" then 0
  else if status = "in_progress" then 1
  else 2

/-- A row of the `sales_reports` table.  Per the migrations, `id` is the
only key (`uuid PRIMARY KEY DEFAULT gen_random_uuid()`); `report_date`
carries no unique constraint.  The uuid is modelled as a natural
number. -/
structure SalesReportRow where
  id : ℕ
  report_date : String
  total_orders : ℕ
  total_revenue : ℚ
  deriving DecidableEq

/-- The `sales_reports` write of `generateSalesReport`
(`useFileManager.tsx` lines 127-134): a client upsert whose row carries
no `id`, so the store generates a fresh primary key and resolves
conflicts against that primary key — merge when the generated id already
exists (it never does), plain append otherwise. -/
def salesReportsUpsert (table : List SalesReportRow) (freshId : ℕ)
    (dateStr : String) (totalOrders : ℕ) (totalRevenue : ℚ) :
    List SalesReportRow :=
  if table.any (fun r => r.id = freshId) then
    table.map (fun r =>
      if r.id = freshId then
        { r with report_date := dateStr, total_orders := totalOrders,
                 total_revenue := totalRevenue }
      else r)
  else
    table ++ [{ id := freshId, report_date := dateStr,
                total_orders := totalOrders, total_revenue := totalRevenue }]

/-- The aggregation-and-persist step of `generateSalesReport`
(`useFileManager.tsx` lines 86-136): count and revenue over the orders of
the date's window, then the upsert above. -/
def generateSalesReportPersist (table : List SalesReportRow) (freshId : ℕ)
    (orders : List DbOrder) (day : ℤ) (dateStr : String) :
    List SalesReportRow :=
  let dayOrders := orders.filter (inTodayWindow day)
  salesReportsUpsert table freshId dateStr dayOrders.length
    ((dayOrders.map DbOrder.total_amount).foldl (fun sum amount => sum + amount) 0)

/-! ## Helper lemmas -/

theorem foldl_add_map_sum {α : Type} (f : α → ℚ) (l : List α) (a : ℚ) :
    l.foldl (fun t x => t + f x) a = a + (l.map f).sum := by
  induction l generalizing a with
  | nil => simp
  | cons x xs ih => simp [ih, add_assoc]

theorem getTotalAmount_eq_sum (l : List OrderItem) :
    getTotalAmount l =
      (l.map (fun item => item.product.price * (item.quantity : ℚ))).sum := by
  simpa [getTotalAmount] using
    foldl_add_map_sum (fun item => item.product.price * (item.quantity : ℚ)) l 0

/-- The cart invariant maintained by a sequence of `addToOrder` calls:
distinct product ids, each quantity equal to the number of additions of
that id so far, and an entry exactly for the ids added so far. -/
def CartInv (cart : List OrderItem) (adds : List Product) : Prop :=
  (cart.map (fun item => item.product.id)).Nodup ∧
  (∀ item ∈ cart, item.quantity = (adds.countP (fun p => p.id = item.product.id) : ℤ)) ∧
  (∀ p ∈ adds, ∃ item ∈ cart, item.product.id = p.id) ∧
  (∀ item ∈ cart, ∃ p ∈ adds, p.id = item.product.id)

theorem cartInv_nil : CartInv [] [] := by
  refine ⟨by simp, by simp, by simp, by simp⟩

theorem cartInv_step {cart : List OrderItem} {adds : List Product}
    (h : CartInv cart adds) (p : Product) :
    CartInv (addToOrder cart p) (adds ++ [p]) := by
  obtain ⟨hnd, hqty, hall, hsrc⟩ := h
  by_cases hex : cart.any (fun item => item.product.id = p.id)
  · have heq : addToOrder cart p = cart.map (fun item =>
        if item.product.id = p.id then { item with quantity := item.quantity + 1 }
        else item) := by
      simp [addToOrder, hex]
    have hid : ∀ item : OrderItem,
        ((if item.product.id = p.id then { item with quantity := item.quantity + 1 }
          else item) : OrderItem).product.id = item.product.id := by
      intro item; split <;> rfl
    refine ⟨?_, ?_, ?_, ?_⟩
    · rw [heq, List.map_map]
      have : ((fun item : OrderItem => item.product.id) ∘ fun item =>
          if item.product.id = p.id then { item with quantity := item.quantity + 1 }
          else item) = fun item : OrderItem => item.product.id := by
        funext item; exact hid item
      rw [this]; exact hnd
    · intro item' hmem
      rw [heq] at hmem
      obtain ⟨item, hic, rfl⟩ := List.mem_map.mp hmem
      by_cases hmatch : item.product.id = p.id
      · have hq1 : ((if item.product.id = p.id then
            { item with quantity := item.quantity + 1 } else item) :
            OrderItem).quantity = item.quantity + 1 := by
          rw [if_pos hmatch]
        have hcount : (adds ++ [p]).countP (fun q => q.id = item.product.id) =
            adds.countP (fun q => q.id = item.product.id) + 1 := by
          rw [List.countP_append]
          simp [hmatch.symm]
        simp only [hq1, hid item, hcount]
        push_cast
        rw [hqty item hic]
      · have hne : ¬p.id = item.product.id := fun h => hmatch h.symm
        have hq1 : ((if item.product.id = p.id then
            { item with quantity := item.quantity + 1 } else item) :
            OrderItem).quantity = item.quantity := by
          rw [if_neg hmatch]
        have hcount : (adds ++ [p]).countP (fun q => q.id = item.product.id) =
            adds.countP (fun q => q.id = item.product.id) := by
          rw [List.countP_append]
          simp [hne]
        simp only [hq1, hid item, hcount]
        exact hqty item hic
    · intro q hq
      rcases List.mem_append.mp hq with hq | hq
      · obtain ⟨item, hic, hiq⟩ := hall q hq
        refine ⟨(if item.product.id = p.id then
          { item with quantity := item.quantity + 1 } else item), ?_, ?_⟩
        · rw [heq]; exact List.mem_map_of_mem _ hic
        · rw [hid item]; exact hiq
      · have hq : q = p := by simpa using hq
        subst hq
        obtain ⟨item, hic, hip⟩ := List.any_eq_true.mp hex
        have hip : item.product.id = q.id := by simpa using hip
        refine ⟨(if item.product.id = q.id then
          { item with quantity := item.quantity + 1 } else item), ?_, ?_⟩
        · rw [heq]; exact List.mem_map_of_mem _ hic
        · rw [hid item]; exact hip
    · intro item' hmem
      rw [heq] at hmem
      obtain ⟨item, hic, rfl⟩ := List.mem_map.mp hmem
      obtain ⟨q, hq, hqi⟩ := hsrc item hic
      exact ⟨q, List.mem_append_left _ hq, by rw [hid item]; exact hqi⟩
  · have heq : addToOrder cart p = cart ++ [{ product := p, quantity := 1 }] := by
      simp only [addToOrder, if_neg hex]
    have hnotin : ∀ item ∈ cart, item.product.id ≠ p.id := by
      intro item hic hcontra
      exact hex (List.any_eq_true.mpr ⟨item, hic, by simpa using hcontra⟩)
    have hzero : adds.countP (fun q => q.id = p.id) = 0 := by
      rw [List.countP_eq_zero]
      intro q hq hcontra
      have hqp : q.id = p.id := by simpa using hcontra
      obtain ⟨item, hic, hiq⟩ := hall q hq
      exact hnotin item hic (hiq.trans hqp)
    refine ⟨?_, ?_, ?_, ?_⟩
    · rw [heq, List.map_append]
      simp only [List.map_cons, List.map_nil]
      rw [List.nodup_append]
      refine ⟨hnd, List.nodup_singleton _, ?_⟩
      intro a ha hb
      have hb : a = p.id := by simpa using hb
      obtain ⟨item, hic, rfl⟩ := List.mem_map.mp ha
      exact hnotin item hic hb
    · intro item hmem
      rw [heq] at hmem
      rcases List.mem_append.mp hmem with hic | hnew
      · have hne : ¬p.id = item.product.id := fun h => hnotin item hic h.symm
        have : (adds ++ [p]).countP (fun q => q.id = item.product.id) =
            adds.countP (fun q => q.id = item.product.id) := by
          rw [List.countP_append]
          simp [hne]
        rw [this]; exact hqty item hic
      · have hnew : item = { product := p, quantity := 1 } := by simpa using hnew
        subst hnew
        simp only [List.countP_append, hzero]
        simp
    · intro q hq
      rcases List.mem_append.mp hq with hq | hq
      · obtain ⟨item, hic, hiq⟩ := hall q hq
        exact ⟨item, by rw [heq]; exact List.mem_append_left _ hic, hiq⟩
      · have hq : q = p := by simpa using hq
        subst hq
        exact ⟨{ product := q, quantity := 1 },
          by rw [heq]; simp, rfl⟩
    · intro item hmem
      rw [heq] at hmem
      rcases List.mem_append.mp hmem with hic | hnew
      · obtain ⟨q, hq, hqi⟩ := hsrc item hic
        exact ⟨q, List.mem_append_left _ hq, hqi⟩
      · have hnew : item = { product := p, quantity := 1 } := by simpa using hnew
        subst hnew
        exact ⟨p, List.mem_append_right _ (by simp), rfl⟩

theorem cartInv_foldl {cart : List OrderItem} {pre : List Product}
    (h : CartInv cart pre) (adds : List Product) :
    CartInv (adds.foldl addToOrder cart) (pre ++ adds) := by
  induction adds generalizing cart pre with
  | nil => simpa using h
  | cons p rest ih =>
      have step := cartInv_step h p
      have := ih step
      simpa using this

/-! ## Claim theorems -/

/-- C6: for every sequence of `addItem` calls starting from the empty
cart, the cart has exactly one entry per distinct product identifier,
the entry's quantity equals the number of times that identifier was
added (so a first addition inserts it with quantity 1), and entries
exist only for identifiers that were added. -/
theorem addItem_cart_invariant (adds : List Product) :
    (((adds.foldl addToOrder []).map (fun item => item.product.id)).Nodup) ∧
    (∀ item ∈ adds.foldl addToOrder [],
      item.quantity = (adds.countP (fun p => p.id = item.product.id) : ℤ)) ∧
    (∀ p ∈ adds, ∃ item ∈ adds.foldl addToOrder [], item.product.id = p.id) ∧
    (∀ item ∈ adds.foldl addToOrder [], ∃ p ∈ adds, p.id = item.product.id) := by
  simpa [CartInv] using cartInv_foldl cartInv_nil adds

/-- Witness for C6: adding products a, b, a leaves one entry for a with
quantity 2, matching the count of additions of a. -/
theorem addItem_cart_invariant_witness :
    (⟨⟨"a", "A", 1⟩, 2⟩ : OrderItem).quantity =
      ((([⟨"a", "A", 1⟩, ⟨"b", "B", 2⟩, ⟨"a", "A", 1⟩] : List Product).countP
        (fun p => p.id = "a")) : ℤ) := by
  have h := (addItem_cart_invariant
    [⟨"a", "A", 1⟩, ⟨"b", "B", 2⟩, ⟨"a", "A", 1⟩]).2.1
    ⟨⟨"a", "A", 1⟩, 2⟩ (by decide)
  exact h

/-- C8 (amended): `updateQuantity` with quantity 0 removes the entry;
with any nonzero quantity, negative included, it writes that quantity as
given onto the matching entry and leaves the other entries unchanged.
Negative quantities are not rejected. -/
theorem updateQuantity_behavior (cart : List OrderItem) (productId : String) (n : ℤ) :
    (∀ item ∈ updateQuantity cart productId 0, item.product.id ≠ productId ∧ item ∈ cart) ∧
    (∀ item ∈ cart, item.product.id ≠ productId → item ∈ updateQuantity cart productId 0) ∧
    (n ≠ 0 → ∀ item ∈ cart, item.product.id = productId →
      ({ item with quantity := n } : OrderItem) ∈ updateQuantity cart productId n) ∧
    (n ≠ 0 → ∀ item ∈ cart, item.product.id ≠ productId →
      item ∈ updateQuantity cart productId n) ∧
    (n ≠ 0 → ∀ item ∈ updateQuantity cart productId n,
      item.product.id = productId → item.quantity = n) := by
  refine ⟨?_, ?_, ?_, ?_, ?_⟩
  · intro item hmem
    simp only [updateQuantity, if_pos rfl] at hmem
    have := List.of_mem_filter hmem
    exact ⟨by simpa using this, List.mem_of_mem_filter hmem⟩
  · intro item hic hne
    simp only [updateQuantity, if_pos rfl]
    exact List.mem_filter.mpr ⟨hic, by simpa using hne⟩
  · intro hn item hic heq
    simp only [updateQuantity, if_neg hn]
    have : ({ item with quantity := n } : OrderItem) =
        (fun item => if item.product.id = productId then
          ({ item with quantity := n } : OrderItem) else item) item := by
      simp [heq]
    rw [this]
    exact List.mem_map_of_mem _ hic
  · intro hn item hic hne
    simp only [updateQuantity, if_neg hn]
    have : item = (fun item => if item.product.id = productId then
        ({ item with quantity := n } : OrderItem) else item) item := by
      simp [hne]
    rw [this]
    exact List.mem_map_of_mem _ hic
  · intro hn item' hmem hid'
    simp only [updateQuantity, if_neg hn] at hmem
    obtain ⟨item, hic, rfl⟩ := List.mem_map.mp hmem
    by_cases hmatch : item.product.id = productId
    · rw [if_pos hmatch]
    · rw [if_neg hmatch] at hid' ⊢
      exact absurd hid' hmatch

/-- Witness for C8's amended claim: setting a concrete entry to
quantity 3 stores quantity 3. -/
theorem updateQuantity_behavior_witness :
    (⟨⟨"p1", "Pizza", 10⟩, 3⟩ : OrderItem) ∈
      updateQuantity [⟨⟨"p1", "Pizza", 10⟩, 1⟩] "p1" 3 := by
  have h := (updateQuantity_behavior [⟨⟨"p1", "Pizza", 10⟩, 1⟩] "p1" 3).2.2.1
    (by decide) ⟨⟨"p1", "Pizza", 10⟩, 1⟩ (by decide) (by decide)
  simpa using h

/-- Counterexample to C8 as stated: `updateQuantity` with -1 neither
leaves the cart unchanged nor fails; it stores the negative quantity. -/
theorem updateQuantity_negative_stored :
    updateQuantity [⟨⟨"p1", "Pizza", 10⟩, 1⟩] "p1" (-1) =
      [⟨⟨"p1", "Pizza", 10⟩, -1⟩] ∧
    updateQuantity [⟨⟨"p1", "Pizza", 10⟩, 1⟩] "p1" (-1) ≠
      [⟨⟨"p1", "Pizza", 10⟩, 1⟩] ∧
    ∃ item ∈ updateQuantity [⟨⟨"p1", "Pizza", 10⟩, 1⟩] "p1" (-1),
      item.quantity < 0 := by
  refine ⟨by decide, by decide, ⟨⟨⟨"p1", "Pizza", 10⟩, -1⟩, by decide, by decide⟩⟩

/-- Sum of cart line subtotals over two-decimal prices is an integer
number of cents. -/
theorem sum_subtotals_cents (cart : List OrderItem)
    (hcents : ∀ item ∈ cart, ∃ c : ℤ, item.product.price = (c : ℚ) / 100) :
    ∃ k : ℤ,
      (cart.map (fun item => item.product.price * (item.quantity : ℚ))).sum =
        (k : ℚ) / 100 := by
  induction cart with
  | nil => exact ⟨0, by simp⟩
  | cons x xs ih =>
      obtain ⟨c, hc⟩ := hcents x (by simp)
      obtain ⟨k, hk⟩ := ih (fun i hi => hcents i (by simp [hi]))
      refine ⟨c * x.quantity + k, ?_⟩
      rw [List.map_cons, List.sum_cons, hc, hk]
      push_cast
      ring

/-- Rounding to two decimals is the identity on an integer number of
cents. -/
theorem round2_cents (k : ℤ) : round2 ((k : ℚ) / 100) = (k : ℚ) / 100 := by
  unfold round2
  have h100 : (k : ℚ) / 100 * 100 = (k : ℚ) := by
    field_simp
  rw [h100]
  have hfloor : ⌊(k : ℚ) + 1 / 2⌋ = k := by
    rw [Int.floor_int_add]
    norm_num
  rw [hfloor]

/-- C4: with two-decimal catalog prices (the store declares
`DECIMAL(10,2)`), `getTotalAmount` equals the sum of quantity × unit
price rounded to two decimal places, and the total is invariant under
permutation of the cart entries. -/
theorem total_rounded_and_order_independent (cart cart' : List OrderItem)
    (hcents : ∀ item ∈ cart, ∃ c : ℤ, item.product.price = (c : ℚ) / 100)
    (hperm : cart.Perm cart') :
    getTotalAmount cart =
      round2 ((cart.map (fun item => item.product.price * (item.quantity : ℚ))).sum) ∧
    getTotalAmount cart = getTotalAmount cart' := by
  constructor
  · obtain ⟨k, hk⟩ := sum_subtotals_cents cart hcents
    rw [getTotalAmount_eq_sum, hk, round2_cents]
  · rw [getTotalAmount_eq_sum, getTotalAmount_eq_sum]
    exact (hperm.map _).sum_eq

/-- Witness for C4: the two-item cart 12.99 × 2 and 2.99 × 1 totals 28.97
in either order. -/
theorem total_rounded_and_order_independent_witness :
    getTotalAmount [⟨⟨"m", "Margherita", 12.99⟩, 2⟩, ⟨⟨"s", "Soda", 2.99⟩, 1⟩] =
      round2 ((([⟨⟨"m", "Margherita", 12.99⟩, 2⟩, ⟨⟨"s", "Soda", 2.99⟩, 1⟩] :
          List OrderItem).map
        (fun item => item.product.price * (item.quantity : ℚ))).sum) ∧
    getTotalAmount [⟨⟨"m", "Margherita", 12.99⟩, 2⟩, ⟨⟨"s", "Soda", 2.99⟩, 1⟩] =
      getTotalAmount [⟨⟨"s", "Soda", 2.99⟩, 1⟩, ⟨⟨"m", "Margherita", 12.99⟩, 2⟩] := by
  refine total_rounded_and_order_independent _ _ ?_ ?_
  · intro item hmem
    rcases List.mem_cons.mp hmem with h | h
    · exact ⟨1299, by rw [h]; norm_num⟩
    · have h : item = ⟨⟨"s", "Soda", 2.99⟩, 1⟩ := by simpa using h
      exact ⟨299, by rw [h]; norm_num⟩
  · exact List.Perm.swap _ _ _

/-- C2: every successfully submitted order persists a `total_amount`
equal to the sum of its line items' subtotals, each subtotal equals
quantity × unit price, and each line item's unit price is the cart
product's price captured at submission time. -/
theorem submission_total_and_subtotals (form : OrderForm) (od : OrderData)
    (items : List OrderItemData)
    (hok : handleSubmitOrder form = .ok (od, items)) :
    od.total_amount = (items.map OrderItemData.subtotal).sum ∧
    (∀ item ∈ items, item.subtotal = (item.quantity : ℚ) * item.unit_price) ∧
    items = form.orderItems.map (fun item =>
      { product_id := item.product.id, quantity := item.quantity,
        unit_price := item.product.price,
        subtotal := item.product.price * (item.quantity : ℚ) }) := by
  unfold handleSubmitOrder at hok
  by_cases hc1 : form.orderItems.length = 0
  · rw [if_pos hc1] at hok
    exact absurd hok (by simp)
  rw [if_neg hc1] at hok
  by_cases hc2 : form.orderType = .dine_in ∧ form.tableNumber = ""
  · rw [if_pos hc2] at hok
    exact absurd hok (by simp)
  rw [if_neg hc2] at hok
  by_cases hc3 : form.orderType = .delivery ∧
      (form.customerName = "" ∨ form.customerAddress = "" ∨
        form.customerLocation = "")
  · rw [if_pos hc3] at hok
    exact absurd hok (by simp)
  rw [if_neg hc3] at hok
  injection hok with h
  injection h with h1 h2
  subst h1
  subst h2
  refine ⟨?_, ?_, rfl⟩
  · show getTotalAmount form.orderItems = _
    rw [getTotalAmount_eq_sum, List.map_map]
    rfl
  · intro item hmem
    obtain ⟨i, hi, rfl⟩ := List.mem_map.mp hmem
    show i.product.price * (i.quantity : ℚ) = (i.quantity : ℚ) * i.product.price
    ring

/-- The end-to-end dine-in scenario of the spec: Margherita 12.99 × 2 and
Soda 2.99 × 1 at table 5. -/
def demoForm : OrderForm :=
  ⟨[⟨⟨"m", "Margherita", 12.99⟩, 2⟩, ⟨⟨"s", "Soda", 2.99⟩, 1⟩],
    .dine_in, "5", "", "", ""⟩

/-- The order record the demo scenario persists. -/
def demoOrderData : OrderData :=
  { order_type := .dine_in, table_number := some (jsParseInt "5"),
    customer_name := none, customer_address := none, customer_location := none,
    total_amount := getTotalAmount demoForm.orderItems, status := "pending" }

/-- The line items the demo scenario persists. -/
def demoItems : List OrderItemData :=
  demoForm.orderItems.map (fun item =>
    { product_id := item.product.id, quantity := item.quantity,
      unit_price := item.product.price,
      subtotal := item.product.price * (item.quantity : ℚ) })

/-- Witness for C2: the dine-in scenario 12.99 × 2 plus 2.99 × 1 at
table 5 yields a total of 28.97, equal to the sum of subtotals 25.98 and
2.99. -/
theorem submission_total_and_subtotals_witness :
    demoOrderData.total_amount = (demoItems.map OrderItemData.subtotal).sum ∧
    demoOrderData.total_amount = 28.97 := by
  have h := submission_total_and_subtotals demoForm demoOrderData demoItems rfl
  refine ⟨h.1, ?_⟩
  show getTotalAmount demoForm.orderItems = _
  rw [getTotalAmount_eq_sum]
  norm_num [demoForm]

/-- C3 (amended): submission validates in source order with first
failure winning — empty cart fails with `EmptyOrder`; a dine-in order
with an empty table-number field fails with `MissingTableNumber` (only
presence is checked: a non-empty value that does not parse as an integer
passes validation and `parseInt` is applied afterwards); a delivery
order with an empty name, address or location fails with
`MissingDeliveryInfo`.  Every failing validation returns before any
write (the error result carries no order or line-item record). -/
theorem submission_validation_order (form : OrderForm) :
    (form.orderItems = [] → handleSubmitOrder form = .error .EmptyOrder) ∧
    (form.orderItems ≠ [] → form.orderType = .dine_in → form.tableNumber = "" →
      handleSubmitOrder form = .error .MissingTableNumber) ∧
    (form.orderItems ≠ [] → form.orderType = .delivery →
      (form.customerName = "" ∨ form.customerAddress = "" ∨
        form.customerLocation = "") →
      handleSubmitOrder form = .error .MissingDeliveryInfo) ∧
    (form.orderItems ≠ [] → form.orderType = .dine_in → form.tableNumber ≠ "" →
      ∃ od items, handleSubmitOrder form = .ok (od, items) ∧
        od.table_number = some (jsParseInt form.tableNumber)) ∧
    (form.orderItems ≠ [] → form.orderType = .delivery →
      form.customerName ≠ "" → form.customerAddress ≠ "" →
      form.customerLocation ≠ "" →
      ∃ od items, handleSubmitOrder form = .ok (od, items)) := by
  refine ⟨?_, ?_, ?_, ?_, ?_⟩
  · intro h
    unfold handleSubmitOrder
    rw [if_pos (by simp [h])]
  · intro h0 h1 h2
    unfold handleSubmitOrder
    rw [if_neg (by simpa [List.length_eq_zero] using h0), if_pos ⟨h1, h2⟩]
  · intro h0 h1 hd
    unfold handleSubmitOrder
    rw [if_neg (by simpa [List.length_eq_zero] using h0),
      if_neg (by simp [h1]), if_pos ⟨h1, hd⟩]
  · intro h0 h1 h2
    unfold handleSubmitOrder
    rw [if_neg (by simpa [List.length_eq_zero] using h0),
      if_neg (fun hc => h2 hc.2), if_neg (by simp [h1])]
    exact ⟨_, _, rfl, by simp [h1]⟩
  · intro h0 h1 hn ha hl
    unfold handleSubmitOrder
    rw [if_neg (by simpa [List.length_eq_zero] using h0),
      if_neg (by simp [h1]), if_neg ?_]
    · exact ⟨_, _, rfl⟩
    · rintro ⟨-, hc | hc | hc⟩
      · exact hn hc
      · exact ha hc
      · exact hl hc

/-- Witness for C3's amended claim: an empty cart fails with
`EmptyOrder`, and a well-formed dine-in submission at table 5
succeeds. -/
theorem submission_validation_order_witness :
    handleSubmitOrder ⟨[], .dine_in, "5", "", "", ""⟩ =
      .error .EmptyOrder ∧
    ∃ od items, handleSubmitOrder
        ⟨[⟨⟨"m", "M", 1⟩, 1⟩], .dine_in, "5", "", "", ""⟩ = .ok (od, items) ∧
      od.table_number = some (jsParseInt "5") := by
  constructor
  · exact (submission_validation_order ⟨[], .dine_in, "5", "", "", ""⟩).1 rfl
  · exact (submission_validation_order
      ⟨[⟨⟨"m", "M", 1⟩, 1⟩], .dine_in, "5", "", "", ""⟩).2.2.2.1
      (by decide) rfl (by decide)

/-- The dine-in form with the non-integer table number "abc". -/
def abcForm : OrderForm :=
  ⟨[⟨⟨"m", "M", 1⟩, 1⟩], .dine_in, "abc", "", "", ""⟩

/-- The order record the "abc" submission persists. -/
def abcOrderData : OrderData :=
  { order_type := .dine_in, table_number := some (jsParseInt "abc"),
    customer_name := none, customer_address := none, customer_location := none,
    total_amount := getTotalAmount abcForm.orderItems, status := "pending" }

/-- The line items the "abc" submission persists. -/
def abcItems : List OrderItemData :=
  abcForm.orderItems.map (fun item =>
    { product_id := item.product.id, quantity := item.quantity,
      unit_price := item.product.price,
      subtotal := item.product.price * (item.quantity : ℚ) })

/-- Counterexample to C3 as stated: a dine-in submission whose table
number is the non-empty, non-integer string "abc" does not fail with
`MissingTableNumber`; validation passes and the persisted record carries
`parseInt("abc")`, which is NaN. -/
theorem dineIn_nonInteger_table_passes :
    jsParseInt "abc" = JSNumber.nan ∧
    handleSubmitOrder abcForm ≠ .error .MissingTableNumber ∧
    (∃ od items, handleSubmitOrder abcForm = .ok (od, items) ∧
      od.table_number = some JSNumber.nan) := by
  refine ⟨by decide, by simp [handleSubmitOrder, abcForm], ?_⟩
  exact ⟨abcOrderData, abcItems, rfl, by decide⟩

/-- Counterexample to C1 as stated: from `pending` the UI does not offer
only `in_progress` — the Order Summary page's Mark Complete button jumps
directly from `pending` to `completed`. -/
theorem pending_offers_direct_complete :
    availableTransitions "pending" = ["in_progress", "completed"] ∧
    "completed" ∈ availableTransitions "pending" ∧
    orderSummaryTransitions "pending" = ["completed"] := by decide

/-- C1 (amended): every transition the UI offers moves the status
strictly forward (no revert, nothing offered from `completed`), but from
`pending` two targets are offered: `in_progress` on the Orders page and
`completed` directly on the Order Summary page; from `in_progress` only
`completed` is offered. -/
theorem transitions_forward_only (s t : String)
    (h : t ∈ availableTransitions s) :
    statusRank s < statusRank t ∧
    (s = "pending" → t = "in_progress" ∨ t = "completed") ∧
    (s = "in_progress" → t = "completed") ∧
    s ≠ "completed" := by
  unfold availableTransitions ordersPageTransitions orderSummaryTransitions at h
  by_cases hp : s = "pending"
  · subst hp
    simp at h
    rcases h with rfl | rfl <;> decide
  · by_cases hi : s = "in_progress"
    · subst hi
      rw [if_neg (by decide), if_pos rfl, if_neg (by decide)] at h
      have h : t = "completed" := by simpa using h
      subst h
      decide
    · rw [if_neg hp, if_neg hi, if_neg hp] at h
      simp at h

/-- Witness for C1's amended claim: the `in_progress` to `completed`
transition moves strictly forward. -/
theorem transitions_forward_only_witness :
    statusRank "in_progress" < statusRank "completed" ∧
    ("in_progress" = "pending" →
      "completed" = "in_progress" ∨ "completed" = "completed") ∧
    ("in_progress" = "in_progress" → "completed" = "completed") ∧
    "in_progress" ≠ "completed" :=
  transitions_forward_only "in_progress" "completed" (by decide)

/-- C10: the underlying status-update operation is unguarded: for every
table, order id and requested status, each row with that id receives
exactly the requested status with every other field unchanged, every
other row is untouched, and the current status is never consulted. -/
theorem updateOrderStatus_unguarded (orders : List DbOrder) (orderId : String)
    (newStatus : String) :
    (updateOrderStatus orders orderId newStatus).length = orders.length ∧
    (∀ o ∈ orders, o.id = orderId →
      ({ o with status := newStatus } : DbOrder) ∈
        updateOrderStatus orders orderId newStatus) ∧
    (∀ o ∈ orders, o.id ≠ orderId →
      o ∈ updateOrderStatus orders orderId newStatus) ∧
    (∀ o' ∈ updateOrderStatus orders orderId newStatus, ∃ o ∈ orders,
      (o.id = orderId ∧ o' = { o with status := newStatus }) ∨
      (o.id ≠ orderId ∧ o' = o)) := by
  refine ⟨List.length_map _ _, ?_, ?_, ?_⟩
  · intro o ho hid
    have : ({ o with status := newStatus } : DbOrder) =
        (fun o => if o.id = orderId then
          ({ o with status := newStatus } : DbOrder) else o) o := by
      simp [hid]
    rw [updateOrderStatus, this]
    exact List.mem_map_of_mem _ ho
  · intro o ho hid
    have : o = (fun o => if o.id = orderId then
        ({ o with status := newStatus } : DbOrder) else o) o := by
      simp [hid]
    rw [updateOrderStatus, this]
    exact List.mem_map_of_mem _ ho
  · intro o' hmem
    rw [updateOrderStatus] at hmem
    obtain ⟨o, ho, rfl⟩ := List.mem_map.mp hmem
    by_cases hid : o.id = orderId
    · exact ⟨o, ho, Or.inl ⟨hid, by rw [if_pos hid]⟩⟩
    · exact ⟨o, ho, Or.inr ⟨hid, by rw [if_neg hid]⟩⟩

/-- Witness for C10: a `completed` order is overwritten to `pending` by
the unguarded update — even a revert goes through. -/
theorem updateOrderStatus_unguarded_witness :
    (⟨"o1", "pending", 10, 0, 0⟩ : DbOrder) ∈
      updateOrderStatus [⟨"o1", "completed", 10, 0, 0⟩] "o1" "pending" := by
  have h := (updateOrderStatus_unguarded
    [⟨"o1", "completed", 10, 0, 0⟩] "o1" "pending").2.1
    ⟨"o1", "completed", 10, 0, 0⟩ (by decide) rfl
  exact h

/-- Counterexample to C5 as stated: with one pending order created the
day before the reference date, `fetchStats` reports total and pending
counts of 1 — the counts are not restricted to the date window, unlike
the claim's all-windowed aggregation, which reports 0. -/
theorem fetchStats_counts_global :
    (fetchStats [⟨"o1", "pending", 10, 0, 0⟩] 1).totalOrders = 1 ∧
    (fetchStats [⟨"o1", "pending", 10, 0, 0⟩] 1).pendingOrders = 1 ∧
    (aggregateStatsClaim [⟨"o1", "pending", 10, 0, 0⟩] 1).totalOrders = 0 ∧
    (aggregateStatsClaim [⟨"o1", "pending", 10, 0, 0⟩] 1).pendingOrders = 0 := by
  refine ⟨by decide, by decide, by decide, by decide⟩

/-- C5 (amended): `fetchStats` computes the total and pending counts over
all orders regardless of date; only the revenue sum is restricted to the
reference date's window, whose strict upper bound sits one second before
midnight — an order created at second 86370 (23:59:30) of the day is
inside, one at second 86399 (23:59:59) is outside.  Revenue is 0 when no
order falls in the window. -/
theorem fetchStats_spec (orders : List DbOrder) (today : ℤ)
    (hsec : ∀ o ∈ orders, o.created_sec < 86400) :
    (fetchStats orders today).totalOrders = orders.length ∧
    (fetchStats orders today).pendingOrders =
      (orders.filter (fun o => o.status = "pending")).length ∧
    (fetchStats orders today).todayRevenue =
      ((orders.filter (inTodayWindow today)).map DbOrder.total_amount).sum ∧
    (∀ o ∈ orders, (inTodayWindow today o = true ↔
      (o.created_day = today ∧ o.created_sec < 86399))) ∧
    (orders.filter (inTodayWindow today) = [] →
      (fetchStats orders today).todayRevenue = 0) := by
  refine ⟨rfl, rfl, ?_, ?_, ?_⟩
  · show ((orders.filter (inTodayWindow today)).map DbOrder.total_amount).foldl
      (fun sum amount => sum + amount) 0 = _
    have h := foldl_add_map_sum (fun q : ℚ => q)
      ((orders.filter (inTodayWindow today)).map DbOrder.total_amount) 0
    simpa using h
  · intro o ho
    have hs := hsec o ho
    simp only [inTodayWindow, DbOrder.ts, decide_eq_true_eq]
    constructor
    · intro ⟨h1, h2⟩
      constructor <;> omega
    · intro ⟨h1, h2⟩
      subst h1
      constructor <;> omega
  · intro h
    show ((orders.filter (inTodayWindow today)).map DbOrder.total_amount).foldl
      (fun sum amount => sum + amount) 0 = 0
    rw [h]
    rfl

/-- Witness for C5's amended claim: two completed orders on the reference
day at 23:59:30 and 23:59:59 — both are counted in the total, the first
is inside the revenue window, the second is not. -/
theorem fetchStats_spec_witness :
    (fetchStats [⟨"a", "completed", 5, 0, 86370⟩,
      ⟨"b", "completed", 7, 0, 86399⟩] 0).totalOrders = 2 ∧
    inTodayWindow 0 ⟨"a", "completed", 5, 0, 86370⟩ = true ∧
    inTodayWindow 0 ⟨"b", "completed", 7, 0, 86399⟩ = false := by
  have h := fetchStats_spec [⟨"a", "completed", 5, 0, 86370⟩,
    ⟨"b", "completed", 7, 0, 86399⟩] 0 (by decide)
  refine ⟨by simpa using h.1, ?_, by decide⟩
  exact (h.2.2.2.1 ⟨"a", "completed", 5, 0, 86370⟩ (by decide)).mpr
    ⟨rfl, by norm_num⟩

/-- C9, evaluated at the failing input: generating the sales report twice
for the same date — each call's row receiving a fresh primary key, since
the client supplies no id and `report_date` carries no unique
constraint — leaves two `sales_reports` records for that date instead of
overwriting the first. -/
theorem salesReport_regeneration_duplicates :
    ((generateSalesReportPersist
        (generateSalesReportPersist [] 0
          [⟨"o1", "completed", 10, 0, 3600⟩] 0 "2025-09-20")
        1 [⟨"o1", "completed", 10, 0, 3600⟩] 0 "2025-09-20").countP
      (fun r => r.report_date = "2025-09-20")) = 2 := by decide

/-- Invariant of the grouping fold: distinct date keys, each bucket
exactly the filter of the processed orders by its key (hence in input
order), and a bucket for every processed order. -/
def GroupsAgree (groups : List DateGroup) (os : List DbOrder) : Prop :=
  (groups.map Prod.fst).Nodup ∧
  (∀ g ∈ groups, g.2 = os.filter (fun o => o.created_day = g.1)) ∧
  (∀ o ∈ os, ∃ g ∈ groups, g.1 = o.created_day)

theorem groupsAgree_nil : GroupsAgree [] [] := ⟨by simp, by simp, by simp⟩

theorem groupsAgree_step {groups : List DateGroup} {pre : List DbOrder}
    (h : GroupsAgree groups pre) (o : DbOrder) :
    GroupsAgree (insertIntoGroups groups o) (pre ++ [o]) := by
  obtain ⟨hnd, hbkt, hcov⟩ := h
  by_cases hex : groups.any (fun g => g.1 = o.created_day)
  · have heq : insertIntoGroups groups o = groups.map (fun g =>
        if g.1 = o.created_day then (g.1, g.2 ++ [o]) else g) := by
      simp [insertIntoGroups, hex]
    have hid : ∀ g : DateGroup,
        ((if g.1 = o.created_day then (g.1, g.2 ++ [o]) else g) : DateGroup).1 =
          g.1 := by
      intro g; split <;> rfl
    refine ⟨?_, ?_, ?_⟩
    · rw [heq, List.map_map]
      have hfun : (Prod.fst ∘ fun g : DateGroup =>
          if g.1 = o.created_day then (g.1, g.2 ++ [o]) else g) =
          (Prod.fst : DateGroup → ℤ) := by
        funext g; exact hid g
      rw [hfun]; exact hnd
    · intro g' hmem
      rw [heq] at hmem
      obtain ⟨g, hg, rfl⟩ := List.mem_map.mp hmem
      by_cases hkey : g.1 = o.created_day
      · rw [if_pos hkey]
        show g.2 ++ [o] = List.filter (fun o' => o'.created_day = g.1) (pre ++ [o])
        rw [List.filter_append, ← hbkt g hg]
        simp [hkey.symm]
      · rw [if_neg hkey]
        show g.2 = List.filter (fun o' => o'.created_day = g.1) (pre ++ [o])
        rw [List.filter_append, ← hbkt g hg]
        have hne : ¬o.created_day = g.1 := fun hc => hkey hc.symm
        simp [hne]
    · intro o' ho'
      rcases List.mem_append.mp ho' with ho' | ho'
      · obtain ⟨g, hg, hk⟩ := hcov o' ho'
        refine ⟨(if g.1 = o.created_day then (g.1, g.2 ++ [o]) else g), ?_, ?_⟩
        · rw [heq]; exact List.mem_map_of_mem _ hg
        · rw [hid g]; exact hk
      · have ho' : o' = o := by simpa using ho'
        subst ho'
        obtain ⟨g, hg, hk⟩ := List.any_eq_true.mp hex
        have hk : g.1 = o'.created_day := by simpa using hk
        refine ⟨(if g.1 = o'.created_day then (g.1, g.2 ++ [o']) else g), ?_, ?_⟩
        · rw [heq]; exact List.mem_map_of_mem _ hg
        · rw [hid g]; exact hk
  · have heq : insertIntoGroups groups o = groups ++ [(o.created_day, [o])] := by
      simp only [insertIntoGroups, if_neg hex]
    have hnokey : ∀ g ∈ groups, g.1 ≠ o.created_day := by
      intro g hg hc
      exact hex (List.any_eq_true.mpr ⟨g, hg, by simpa using hc⟩)
    have hprenone :
        pre.filter (fun o' => o'.created_day = o.created_day) = [] := by
      rw [List.filter_eq_nil_iff]
      intro o' ho' hc
      have hc : o'.created_day = o.created_day := by simpa using hc
      obtain ⟨g, hg, hk⟩ := hcov o' ho'
      exact hnokey g hg (hk.trans hc)
    refine ⟨?_, ?_, ?_⟩
    · rw [heq, List.map_append]
      rw [List.nodup_append]
      refine ⟨hnd, by simp, ?_⟩
      intro a ha hb
      have hb : a = o.created_day := by simpa using hb
      obtain ⟨g, hg, rfl⟩ := List.mem_map.mp ha
      exact hnokey g hg hb
    · intro g hmem
      rw [heq] at hmem
      rcases List.mem_append.mp hmem with hg | hg
      · show g.2 = List.filter (fun o' => o'.created_day = g.1) (pre ++ [o])
        rw [List.filter_append, ← hbkt g hg]
        have hne : ¬o.created_day = g.1 := fun hc => hnokey g hg hc.symm
        simp [hne]
      · have hg : g = (o.created_day, [o]) := by simpa using hg
        subst hg
        show [o] = List.filter (fun o' => o'.created_day = o.created_day) (pre ++ [o])
        rw [List.filter_append, hprenone]
        simp
    · intro o' ho'
      rcases List.mem_append.mp ho' with ho' | ho'
      · obtain ⟨g, hg, hk⟩ := hcov o' ho'
        exact ⟨g, by rw [heq]; exact List.mem_append_left _ hg, hk⟩
      · have ho' : o' = o := by simpa using ho'
        subst ho'
        exact ⟨(o'.created_day, [o']), by rw [heq]; simp, rfl⟩

theorem groupsAgree_foldl {groups : List DateGroup} {pre : List DbOrder}
    (h : GroupsAgree groups pre) (os : List DbOrder) :
    GroupsAgree (os.foldl insertIntoGroups groups) (pre ++ os) := by
  induction os generalizing groups pre with
  | nil => simpa using h
  | cons o rest ih =>
      have h2 := ih (groupsAgree_step h o)
      rw [List.append_assoc] at h2
      simpa using h2

theorem perm_flatten_of_perm {α : Type} {l₁ l₂ : List (List α)}
    (h : l₁.Perm l₂) : l₁.flatten.Perm l₂.flatten := by
  induction h with
  | nil => simp
  | cons x _ ih => simpa using ih.append_left x
  | swap x y l =>
      rw [List.flatten_cons, List.flatten_cons, List.flatten_cons,
        List.flatten_cons, ← List.append_assoc, ← List.append_assoc]
      exact List.perm_append_comm.append_right _
  | trans _ _ ih1 ih2 => exact ih1.trans ih2

theorem flatten_insertIntoGroups (groups : List DateGroup) (o : DbOrder)
    (hnd : (groups.map Prod.fst).Nodup) :
    ((insertIntoGroups groups o).map Prod.snd).flatten.Perm
      ((groups.map Prod.snd).flatten ++ [o]) := by
  induction groups with
  | nil => simp [insertIntoGroups]
  | cons g rest ih =>
      obtain ⟨hni, hndr⟩ := List.nodup_cons.mp hnd
      by_cases hkey : g.1 = o.created_day
      · have hexx : (g :: rest).any (fun g' => g'.1 = o.created_day) := by
          simp [hkey]
        rw [insertIntoGroups, if_pos hexx, List.map_cons, if_pos hkey]
        have hrest : ∀ g' ∈ rest,
            ¬(g'.1 = o.created_day) := by
          intro g' hg' hc
          exact hni (by
            rw [hkey]
            rw [← hc]
            exact List.mem_map_of_mem _ hg')
        have hmap : rest.map (fun g' =>
            if g'.1 = o.created_day then (g'.1, g'.2 ++ [o]) else g') = rest := by
          have := List.map_congr_left (l := rest)
            (f := fun g' : DateGroup =>
              if g'.1 = o.created_day then (g'.1, g'.2 ++ [o]) else g')
            (g := id) (fun g' hg' => if_neg (hrest g' hg'))
          rw [this, List.map_id]
        rw [hmap]
        simp only [List.map_cons, List.flatten_cons]
        rw [List.append_assoc, List.append_assoc]
        exact List.perm_append_comm.append_left g.2
      · have hcons : insertIntoGroups (g :: rest) o =
            g :: insertIntoGroups rest o := by
          by_cases hra : rest.any (fun g' => g'.1 = o.created_day)
          · have hall : (g :: rest).any (fun g' => g'.1 = o.created_day) := by
              simp [hra]
            rw [insertIntoGroups, if_pos hall, insertIntoGroups, if_pos hra,
              List.map_cons, if_neg hkey]
          · have hnone : ¬(g :: rest).any (fun g' => g'.1 = o.created_day) := by
              simp only [List.any_cons, Bool.or_eq_true, not_or]
              exact ⟨by simpa using hkey, hra⟩
            rw [insertIntoGroups, if_neg hnone, insertIntoGroups, if_neg hra]
            rfl
        rw [hcons]
        simp only [List.map_cons, List.flatten_cons]
        have hperm := (ih hndr).append_left g.2
        rw [List.append_assoc]
        exact hperm

theorem flatten_foldl (os : List DbOrder) (groups : List DateGroup)
    (pre : List DbOrder) (h : GroupsAgree groups pre) :
    ((os.foldl insertIntoGroups groups).map Prod.snd).flatten.Perm
      ((groups.map Prod.snd).flatten ++ os) := by
  induction os generalizing groups pre with
  | nil => simp
  | cons o rest ih =>
      have h1 := ih (insertIntoGroups groups o) (pre ++ [o]) (groupsAgree_step h o)
      have h2 := flatten_insertIntoGroups groups o h.1
      have h3 := h1.trans (h2.append_right rest)
      have h4 : ((groups.map Prod.snd).flatten ++ [o]) ++ rest =
          (groups.map Prod.snd).flatten ++ o :: rest := by simp
      rw [h4] at h3
      exact h3

/-- C7: `groupOrdersByDate` partitions the orders into buckets keyed by
the calendar date of creation (the date component, not the full
timestamp): each bucket is exactly the input filtered to its date, hence
in input order; every order has a bucket; keys are distinct; buckets are
strictly descending by date; and flattening the buckets in order yields
a permutation of the input. -/
theorem groupOrdersByDate_spec (orders : List DbOrder) :
    (∀ g ∈ groupOrdersByDate orders,
      g.2 = orders.filter (fun o => o.created_day = g.1)) ∧
    (∀ o ∈ orders, ∃ g ∈ groupOrdersByDate orders, g.1 = o.created_day) ∧
    (((groupOrdersByDate orders).map Prod.fst).Nodup) ∧
    ((groupOrdersByDate orders).Pairwise (fun a b => b.1 < a.1)) ∧
    (((groupOrdersByDate orders).map Prod.snd).flatten.Perm orders) := by
  have hagree := groupsAgree_foldl groupsAgree_nil orders
  rw [List.nil_append] at hagree
  obtain ⟨hnd, hbkt, hcov⟩ := hagree
  have hperm : (groupOrdersByDate orders).Perm (orders.foldl insertIntoGroups []) :=
    List.perm_insertionSort dateGe _
  have hndmap : ((groupOrdersByDate orders).map Prod.fst).Nodup :=
    ((hperm.map Prod.fst).nodup_iff).mpr hnd
  refine ⟨?_, ?_, hndmap, ?_, ?_⟩
  · intro g hg
    exact hbkt g (hperm.mem_iff.mp hg)
  · intro o ho
    obtain ⟨g, hg, hk⟩ := hcov o ho
    exact ⟨g, hperm.mem_iff.mpr hg, hk⟩
  · have hsorted : (groupOrdersByDate orders).Pairwise dateGe :=
      List.sorted_insertionSort dateGe _
    have hpneq : (groupOrdersByDate orders).Pairwise
        (fun a b : DateGroup => a.1 ≠ b.1) := List.pairwise_map.mp hndmap
    exact (hsorted.and hpneq).imp
      (fun hab => lt_of_le_of_ne hab.1 (fun hc => hab.2 hc.symm))
  · have hflat := flatten_foldl orders [] [] groupsAgree_nil
    exact (perm_flatten_of_perm (hperm.map Prod.snd)).trans (by simpa using hflat)

/-- Witness for C7: three orders on days 1, 0, 1 — the day-1 bucket
consists of exactly the day-1 orders in input order. -/
theorem groupOrdersByDate_spec_witness :
    ((⟨1, [⟨"a", "pending", 1, 1, 0⟩, ⟨"c", "pending", 1, 1, 5⟩]⟩ : DateGroup)).2 =
      ([⟨"a", "pending", 1, 1, 0⟩, ⟨"b", "pending", 1, 0, 0⟩,
        ⟨"c", "pending", 1, 1, 5⟩] : List DbOrder).filter
        (fun o => o.created_day = 1) := by
  have h := (groupOrdersByDate_spec
    [⟨"a", "pending", 1, 1, 0⟩, ⟨"b", "pending", 1, 0, 0⟩,
      ⟨"c", "pending", 1, 1, 5⟩]).1
    ⟨1, [⟨"a", "pending", 1, 1, 0⟩, ⟨"c", "pending", 1, 1, 5⟩]⟩ (by decide)
  exact h

end PizzaHQ
